import Mathlib

/-!
Shallow embedding of the git-statistics acquisition and caching core of
quantify-your-life (src/quantify/sources/git_stats/), together with proofs
about the claims of its specification.

Modelling conventions:
- Python `int` is Lean `Int` (both are arbitrary precision).
- Calendar days are modelled as integers (day numbers); `date.today()` is an
  explicit parameter `today : Int`, and `timedelta(days=1)` is `1`.  The SQLite
  store keeps ISO day strings whose lexicographic order agrees with day order,
  so range conditions on days transfer directly.
- The SQLite tables `daily_stats` and `repo_metadata` are modelled as lists of
  rows; `INSERT OR REPLACE` on the primary key is modelled by removing the rows
  with the same key and appending the new row.
- Repository paths are the already-resolved key strings (`_repo_key`).
- Child-process invocations are modelled by passing the outcome of the
  invocation (`RunOutcome`) as an argument; a code path whose result does not
  depend on that argument provably does not invoke the tool.
- `pathlib.Path` is modelled with PurePosixPath semantics (the canonical
  behaviour; on Windows the backslash is an additional separator).
- `fnmatch.fnmatch` is modelled by a backtracking glob matcher supporting
  `*`, `?`, `[...]` classes with ranges and `!`-negation, and the literal-`[`
  fallback for an unterminated class, matching `fnmatch.translate` on POSIX
  (where `os.path.normcase` is the identity).  The matcher uses explicit fuel
  `|pattern| + |string| + 1`; every recursive call strictly decreases
  `|pattern| + |string|`, so the fuel is never exhausted on the way to a base
  case.
-/

namespace Quantify

/-! ### Value types (git_log_parser.GitStats) -/

/-- `GitStats`: statistics from git log for a date range (dataclass with
`added`, `removed` and `commits = 0` default). -/
structure GitStats where
  added : Int
  removed : Int
  commits : Int
deriving Repr, DecidableEq

/-- `GitStats.net`: net lines (added - removed), a derived property. -/
def GitStats.net (s : GitStats) : Int :=
  s.added - s.removed

/-! ### Python string primitives

All string manipulation is implemented structurally over `List Char` (with
`String` kept at the interfaces) so that every definition evaluates by kernel
reduction on concrete inputs. -/

/-- Split a character list at every occurrence of `sep`, keeping empty
pieces — the behaviour of Python `str.split(sep)` for a one-character
separator (`"".split(sep) == [""]`). -/
def splitCharList (sep : Char) : List Char → List (List Char)
  | [] => [[]]
  | c :: cs =>
    let r := splitCharList sep cs
    if c = sep then [] :: r
    else
      match r with
      | [] => [[c]]
      | h :: t => (c :: h) :: t

/-- Python `s.split(sep)` for a one-character separator. -/
def pySplit (sep : Char) (s : String) : List String :=
  (splitCharList sep s.toList).map String.mk

/-- ASCII whitespace recognised by `str.strip()` / `int()` stripping. -/
def pyIsSpace (c : Char) : Bool :=
  c = ' ' || c = '\t' || c = '\n' || c = '\r' || c = '\x0b' || c = '\x0c'

/-- `str.strip()`: remove leading and trailing whitespace. -/
def pyStrip (s : String) : String :=
  String.mk (((s.toList.dropWhile pyIsSpace).reverse.dropWhile pyIsSpace).reverse)

/-- Python `s.endswith(suffix)`. -/
def pyEndsWith (s suffix : String) : Bool :=
  suffix.toList.isSuffixOf s.toList

/-- Numeric value of a decimal digit character. -/
def digitVal (c : Char) : Nat :=
  c.toNat - 48

/-- Digits of a Python integer literal after the first digit: single
underscores are allowed between digits only. -/
def pyDigitsRest (acc : Nat) : List Char → Option Nat
  | [] => some acc
  | '_' :: c :: cs => if c.isDigit then pyDigitsRest (10 * acc + digitVal c) cs else none
  | '_' :: [] => none
  | c :: cs => if c.isDigit then pyDigitsRest (10 * acc + digitVal c) cs else none

/-- Unsigned decimal integer in Python `int()` syntax (nonempty digit string,
single underscores between digits). -/
def pyParseUnsigned : List Char → Option Nat
  | [] => none
  | c :: cs => if c.isDigit then pyDigitsRest (digitVal c) cs else none

/-- Python `int(s)` for base 10: strip whitespace, optional sign, digits with
optional single underscores between them.  Returns `none` where Python raises
`ValueError`. -/
def pyParseInt (s : String) : Option Int :=
  let cs := ((s.toList.dropWhile pyIsSpace).reverse.dropWhile pyIsSpace).reverse
  match cs with
  | '+' :: rest => (pyParseUnsigned rest).map (fun n => (n : Int))
  | '-' :: rest => (pyParseUnsigned rest).map (fun n => -(n : Int))
  | _ => (pyParseUnsigned cs).map (fun n => (n : Int))

/-! ### pathlib model (PurePosixPath) -/

/-- `Path(fp).parts`: split on `/`, dropping empty components and `.`,
keeping a leading root component `/` for absolute paths. -/
def pathParts (fp : String) : List String :=
  let comps := (pySplit '/' fp).filter (fun c => c != "" && c != ".")
  match fp.toList with
  | '/' :: _ => "/" :: comps
  | _ => comps

/-- `Path(fp).name`: the final path component, excluding the root ("" when
there is none). -/
def pathName (fp : String) : String :=
  ((((pySplit '/' fp).filter (fun c => c != "" && c != ".")).getLast?).getD "")

/-! ### fnmatch model -/

/-- Membership of a character in a glob character class (ranges `a-b`,
with `-` literal at either end). -/
def inClass (c : Char) : List Char → Bool
  | a :: '-' :: b :: rest => (a ≤ c && c ≤ b) || inClass c rest
  | a :: rest => (a == c) || inClass c rest
  | [] => false

/-- Scan to the closing `]` of a character class, returning the contents and
the remainder of the pattern. -/
def splitAtClose : List Char → Option (List Char × List Char)
  | [] => none
  | ']' :: rest => some ([], rest)
  | c :: rest => (splitAtClose rest).map (fun p => (c :: p.1, p.2))

/-- Parse the body of a `[...]` class (the characters after `[`):
optional `!` negation, then an immediately following `]` is literal content,
then contents up to the closing `]`.  `none` when the class is unterminated
(in which case `fnmatch` treats `[` as a literal). -/
def bracketParse (ps : List Char) : Option (Bool × List Char × List Char) :=
  let negAndBody : Bool × List Char :=
    match ps with
    | '!' :: rest => (true, rest)
    | _ => (false, ps)
  let litAndBody : List Char × List Char :=
    match negAndBody.2 with
    | ']' :: rest => ([']'], rest)
    | _ => ([], negAndBody.2)
  match splitAtClose litAndBody.2 with
  | some (contents, rest) => some (negAndBody.1, litAndBody.1 ++ contents, rest)
  | none => none

/-- Fuel-indexed glob matcher (pattern, then string).  `*` matches any
(possibly empty) substring, `?` any single character, `[...]` a class.
Each recursive call strictly decreases `|pattern| + |string|`, so fuel
`|pattern| + |string| + 1` always suffices. -/
def globMatchFuel : Nat → List Char → List Char → Bool
  | 0, _, _ => false
  | _ + 1, [], s => s.isEmpty
  | fuel + 1, '*' :: ps, s =>
      globMatchFuel fuel ps s ||
        (match s with
         | [] => false
         | _ :: ss => globMatchFuel fuel ('*' :: ps) ss)
  | fuel + 1, '?' :: ps, s =>
      (match s with
       | _ :: ss => globMatchFuel fuel ps ss
       | [] => false)
  | fuel + 1, '[' :: ps, s =>
      (match bracketParse ps with
       | some (neg, contents, rest) =>
           (match s with
            | c :: ss => (inClass c contents != neg) && globMatchFuel fuel rest ss
            | [] => false)
       | none =>
           (match s with
            | c :: ss => (c == '[') && globMatchFuel fuel ps ss
            | [] => false))
  | fuel + 1, p :: ps, s =>
      (match s with
       | c :: ss => (p == c) && globMatchFuel fuel ps ss
       | [] => false)

/-- `fnmatch.fnmatch(s, pat)` on a POSIX system (`normcase` is the
identity). -/
def fnmatch (s pat : String) : Bool :=
  globMatchFuel (pat.toList.length + s.toList.length + 1) pat.toList s.toList

/-! ### GitLogParser (git_log_parser.py) -/

/-- `ProjectTypeConfig` (config/settings.py): the fields consulted by the
parser. -/
structure ProjectTypeConfig where
  name : String
  includePatterns : List String
  excludeDirs : List String
  excludeExtensions : List String
deriving Repr, DecidableEq

/-- The parser's state after `__init__`: exclusion sets (with the project
type's extra exclusions already merged in) and the optional project type
configuration. -/
structure GitLogParser where
  author : String
  excludeDirs : List String
  excludeExtensions : List String
  excludeFilenames : List String
  projectTypeConfig : Option ProjectTypeConfig
deriving Repr, DecidableEq

/-- `GitLogParser.__init__`: merge the project type's extra exclusions into
the global sets (set union, modelled as append — only membership matters). -/
def makeGitLogParser (author : String) (excludeDirs excludeExtensions
    excludeFilenames : List String) (cfg : Option ProjectTypeConfig) :
    GitLogParser :=
  match cfg with
  | none => ⟨author, excludeDirs, excludeExtensions, excludeFilenames, none⟩
  | some c =>
      ⟨author, excludeDirs ++ c.excludeDirs,
        excludeExtensions ++ c.excludeExtensions, excludeFilenames, some c⟩

/-- `filepath.replace("\\", "/")`: replace every backslash by a slash
(single-character replacement is a per-character map). -/
def normalizeSeps (s : String) : String :=
  String.mk (s.toList.map (fun c => if c = '\\' then '/' else c))

/-- `GitLogParser._matches_include_pattern`: `True` when there is no project
type configuration; otherwise normalize separators and test the include
patterns with `fnmatch`. -/
def matches_include_pattern (p : GitLogParser) (filepath : String) : Bool :=
  match p.projectTypeConfig with
  | none => true
  | some cfg =>
      let normalized := normalizeSeps filepath
      cfg.includePatterns.any (fun pat => fnmatch normalized pat)

/-- `GitLogParser._should_exclude`: excluded directories by path component,
then exact filenames, then extension suffixes, then (for project types with
include patterns) failure to match any include pattern. -/
def should_exclude (p : GitLogParser) (filepath : String) : Bool :=
  if (pathParts filepath).any (fun part => p.excludeDirs.contains part) then
    true
  else if p.excludeFilenames.contains (pathName filepath) then
    true
  else if p.excludeExtensions.any (fun ext => pyEndsWith (pathName filepath) ext) then
    true
  else
    match p.projectTypeConfig with
    | none => false
    | some cfg =>
        !cfg.includePatterns.isEmpty && !(matches_include_pattern p filepath)

/-- One iteration of the `_parse_numstat` loop on one line of output.
Faithfully models the Python `try` block: `total_added += int(added_str)`
completes before `int(removed_str)` is evaluated, so a line whose removed
field fails to parse has already contributed its added value. -/
def numstatStep (p : GitLogParser) (acc : GitStats) (line : String) : GitStats :=
  if line = "" then acc
  else if line = "---COMMIT---" then ⟨acc.added, acc.removed, acc.commits + 1⟩
  else
    match pySplit '\t' line with
    | [addedStr, removedStr, filepath] =>
        if addedStr = "-" || removedStr = "-" then acc
        else if should_exclude p filepath then acc
        else
          match pyParseInt addedStr with
          | none => acc
          | some va =>
              match pyParseInt removedStr with
              | none => ⟨acc.added + va, acc.removed, acc.commits⟩
              | some vr => ⟨acc.added + va, acc.removed + vr, acc.commits⟩
    | _ => acc

/-- The contribution of a single line to the totals of `_parse_numstat`. -/
def lineDelta (p : GitLogParser) (line : String) : GitStats :=
  numstatStep p ⟨0, 0, 0⟩ line

/-- `GitLogParser._parse_numstat`: strip the output, split into lines, and
fold the per-line accumulation starting from zero totals. -/
def parse_numstat (p : GitLogParser) (output : String) : GitStats :=
  (pySplit '\n' (pyStrip output)).foldl (numstatStep p) ⟨0, 0, 0⟩

/-- Outcome of one child-process invocation of the history tool, as seen by
`get_stats`'s exception handlers. -/
inductive RunOutcome where
  | ok (output : String)
  | calledProcessError
  | subprocessError
  | fileNotFound
deriving Repr, DecidableEq

/-- `GitLogParser.get_stats` as a transition on the in-memory failed set:
a repository already marked failed short-circuits (the outcome argument is
not consulted, i.e. the tool is not invoked); `CalledProcessError` and
`SubprocessError` (which includes `TimeoutExpired`) add the repository to
the failed set; `FileNotFoundError` returns zero stats without marking. -/
def get_stats (p : GitLogParser) (failed : List String) (repo : String)
    (outcome : RunOutcome) : GitStats × List String :=
  if failed.contains repo then (⟨0, 0, 0⟩, failed)
  else
    match outcome with
    | .ok output => (parse_numstat p output, failed)
    | .calledProcessError => (⟨0, 0, 0⟩, repo :: failed)
    | .subprocessError => (⟨0, 0, 0⟩, repo :: failed)
    | .fileNotFound => (⟨0, 0, 0⟩, failed)

/-! ### GitStatsCache (stats_cache.py) -/

/-- One row of the `daily_stats` table (primary key `(repo, day)`). -/
structure CacheRow where
  repo : String
  day : Int
  added : Int
  removed : Int
  commits : Int
deriving Repr, DecidableEq

/-- One row of the `repo_metadata` table (primary key `repo`). -/
structure RepoMetaRow where
  repo : String
  projectType : String
  typeSource : String
  detectedAt : String
deriving Repr, DecidableEq

/-- The persistent store: both tables. -/
structure CacheState where
  dailyStats : List CacheRow
  repoMeta : List RepoMetaRow
deriving Repr, DecidableEq

/-- `INSERT OR REPLACE INTO daily_stats`: replace the row with the same
primary key, if any, by the new row. -/
def upsertRow (rows : List CacheRow) (r : CacheRow) : List CacheRow :=
  (rows.filter (fun x => !(x.repo == r.repo && x.day == r.day))) ++ [r]

/-- Lookup of the `daily_stats` row with the given primary key. -/
def lookupRow (rows : List CacheRow) (repo : String) (day : Int) :
    Option CacheRow :=
  rows.find? (fun x => x.repo == repo && x.day == day)

/-- `GitStatsCache.get_cached_dates`: the dates of the rows for this repo in
`[startDate, endDate]`. -/
def get_cached_dates (st : CacheState) (repo : String)
    (startDate endDate : Int) : List Int :=
  (st.dailyStats.filter (fun r =>
    r.repo == repo && decide (startDate ≤ r.day) && decide (r.day ≤ endDate))).map
    (fun r => r.day)

/-- `GitStatsCache.get_missing_dates`: all days of
`[startDate, min endDate today]` minus the cached days, with today discarded
from the cached set first (today is always considered missing); empty when
the clamped range is empty. -/
def get_missing_dates (today : Int) (st : CacheState) (repo : String)
    (startDate endDate : Int) : List Int :=
  let effectiveEnd := min endDate today
  if effectiveEnd < startDate then []
  else
    let allDates :=
      (List.range ((effectiveEnd - startDate).toNat + 1)).map
        (fun (i : Nat) => startDate + (i : Int))
    let cached :=
      (get_cached_dates st repo startDate effectiveEnd).filter
        (fun d => d != today)
    allDates.filter (fun d => !(cached.contains d))

/-- `GitStatsCache.get_cached_sum`: clamp the range to
`[startDate, min endDate (today - 1)]` (yesterday is the last cacheable day),
returning zeros for an empty clamped range, else the SQL `SUM` over the rows
of this repo in the clamped range. -/
def get_cached_sum (today : Int) (st : CacheState) (repo : String)
    (startDate endDate : Int) : Int × Int × Int :=
  let effectiveEnd := min endDate (today - 1)
  if effectiveEnd < startDate then (0, 0, 0)
  else
    let rows := st.dailyStats.filter (fun r =>
      r.repo == repo && decide (startDate ≤ r.day) && decide (r.day ≤ effectiveEnd))
    ((rows.map (fun r => r.added)).sum,
     (rows.map (fun r => r.removed)).sum,
     (rows.map (fun r => r.commits)).sum)

/-- `GitStatsCache.save_daily_stats`: skip when `day >= today`, else upsert
the row. -/
def save_daily_stats (today : Int) (st : CacheState) (repo : String)
    (day : Int) (stats : GitStats) : CacheState :=
  if today ≤ day then st
  else
    { st with
      dailyStats :=
        upsertRow st.dailyStats ⟨repo, day, stats.added, stats.removed, stats.commits⟩ }

/-- `GitStatsCache.save_batch`: upsert, in one transaction, exactly the
entries whose day is strictly before today (dict iteration modelled as a
list of (day, stats) pairs with distinct days). -/
def save_batch (today : Int) (st : CacheState) (repo : String)
    (entries : List (Int × GitStats)) : CacheState :=
  let toWrite := entries.filter (fun e => decide (e.1 < today))
  { st with
    dailyStats :=
      toWrite.foldl
        (fun rows e =>
          upsertRow rows ⟨repo, e.1, e.2.added, e.2.removed, e.2.commits⟩)
        st.dailyStats }

/-- `GitStatsCache.clear_repo`: delete all `daily_stats` rows of the repo. -/
def clear_repo (st : CacheState) (repo : String) : CacheState :=
  { st with dailyStats := st.dailyStats.filter (fun r => !(r.repo == repo)) }

/-- `GitStatsCache.clear_all`: delete all `daily_stats` rows. -/
def clear_all (st : CacheState) : CacheState :=
  { st with dailyStats := [] }

/-- `GitStatsCache.set_project_type`: `INSERT OR REPLACE` into
`repo_metadata` only (`now` is the `datetime('now')` value).  It does not
touch `daily_stats`. -/
def cacheSetProjectType (st : CacheState) (repo projectType typeSource
    now : String) : CacheState :=
  { st with
    repoMeta :=
      (st.repoMeta.filter (fun m => !(m.repo == repo))) ++
        [⟨repo, projectType, typeSource, now⟩] }

/-- `GitStatsCache.delete_project_type`: delete the metadata row. -/
def delete_project_type (st : CacheState) (repo : String) : CacheState :=
  { st with repoMeta := st.repoMeta.filter (fun m => !(m.repo == repo)) }

/-- `GitStatsSource.set_project_type` (source.py): store the type via the
cache and then clear the repository's `daily_stats` rows. -/
def sourceSetProjectType (st : CacheState) (repo projectType typeSource
    now : String) : CacheState :=
  clear_repo (cacheSetProjectType st repo projectType typeSource now) repo

/-- The write operations of the cache, for stating state invariants. -/
inductive CacheOp where
  | saveDaily (repo : String) (day : Int) (stats : GitStats)
  | saveBatch (repo : String) (entries : List (Int × GitStats))
  | setProjectType (repo projectType typeSource now : String)
  | deleteProjectType (repo : String)
  | clearRepo (repo : String)
  | clearAll
deriving Repr

/-- Apply one cache operation to the store. -/
def applyOp (today : Int) (st : CacheState) : CacheOp → CacheState
  | .saveDaily repo day stats => save_daily_stats today st repo day stats
  | .saveBatch repo entries => save_batch today st repo entries
  | .setProjectType repo projectType typeSource now =>
      cacheSetProjectType st repo projectType typeSource now
  | .deleteProjectType repo => delete_project_type st repo
  | .clearRepo repo => clear_repo st repo
  | .clearAll => clear_all st

/-! ### GitStatsDataProvider (data_provider.py) -/

/-- `GitStatsDataProvider._compute_stat`: select the statistic by kind,
any unrecognized kind falling through to net. -/
def compute_stat (statType : String) (added removed commits : Int) : Int :=
  if statType = "added" then added
  else if statType = "removed" then removed
  else if statType = "commits" then commits
  else added - removed

/-- Componentwise sum of per-repository (added, removed, commits) results,
as accumulated by `get_sum` across repositories. -/
def sumTriples (results : List (Int × Int × Int)) : Int × Int × Int :=
  results.foldl
    (fun acc r => (acc.1 + r.1, acc.2.1 + r.2.1, acc.2.2 + r.2.2))
    (0, 0, 0)

/-- The multi-repository path of `GitStatsDataProvider.get_sum`: accumulate
added/removed/commits across repositories, then apply `_compute_stat` to
the totals. -/
def get_sum_totals (statType : String) (results : List (Int × Int × Int)) :
    Int :=
  let t := sumTriples results
  compute_stat statType t.1 t.2.1 t.2.2

/-! ### Helper definitions for the proofs -/

/-- A parser with no exclusions and no project type configuration. -/
def defaultParser : GitLogParser :=
  ⟨"author", [], [], [], none⟩

/-- A cache state with one daily row, for exercising the metadata
operations. -/
def projState : CacheState :=
  ⟨[⟨"r", 1, 2, 3, 4⟩], []⟩

/-- A cache state with days 2 and 4 cached, the gap-correctness scenario of
the specification. -/
def gapState : CacheState :=
  ⟨[⟨"r", 2, 1, 1, 1⟩, ⟨"r", 4, 1, 1, 1⟩], []⟩

/-- The value a single well-formed (3-field) numstat line contributes to the
totals of `_parse_numstat`, as a function of its three tab-separated fields:
zero for a binary marker or an excluded file; on a parse failure of the added
field, zero; on a parse failure of the removed field alone, the added value
only (the added accumulation has already happened when the removed parse
raises); otherwise both parsed values.  Commit markers are not 3-field lines,
so the commit component is always zero. -/
def lineOutcome (p : GitLogParser) (a r f : String) : GitStats :=
  if a = "-" || r = "-" then ⟨0, 0, 0⟩
  else if should_exclude p f then ⟨0, 0, 0⟩
  else
    match pyParseInt a with
    | none => ⟨0, 0, 0⟩
    | some va =>
        match pyParseInt r with
        | none => ⟨va, 0, 0⟩
        | some vr => ⟨va, vr, 0⟩

/-! ### Shared helper lemmas -/

/-- `contains` agrees with list membership. -/
theorem contains_iff_mem {α : Type} [BEq α] [LawfulBEq α] (l : List α) (x : α) :
    l.contains x = true ↔ x ∈ l := by
  simp [List.contains, List.elem_iff]

/-- `failed.contains repo` agrees with list membership. -/
theorem contains_iff_mem_str (l : List String) (s : String) :
    l.contains s = true ↔ s ∈ l := by
  simp [List.contains, List.elem_iff]

/-- Componentwise description of the fold accumulating per-repository
triples in `get_sum`. -/
theorem foldl_triple_add (l : List (Int × Int × Int)) (acc : Int × Int × Int) :
    l.foldl (fun acc r => (acc.1 + r.1, acc.2.1 + r.2.1, acc.2.2 + r.2.2)) acc =
      (acc.1 + (l.map (fun t => t.1)).sum,
       acc.2.1 + (l.map (fun t => t.2.1)).sum,
       acc.2.2 + (l.map (fun t => t.2.2)).sum) := by
  induction l generalizing acc with
  | nil => simp
  | cons x xs ih =>
      simp only [List.foldl_cons, ih, List.map_cons, List.sum_cons, Prod.ext_iff]
      refine ⟨by ring, by ring, by ring⟩

/-- `sumTriples` is the componentwise sum. -/
theorem sumTriples_eq (l : List (Int × Int × Int)) :
    sumTriples l =
      ((l.map (fun t => t.1)).sum, (l.map (fun t => t.2.1)).sum,
       (l.map (fun t => t.2.2)).sum) := by
  simpa [sumTriples] using foldl_triple_add l (0, 0, 0)

/-- Summation distributes over the per-repository net. -/
theorem sum_map_sub (l : List (Int × Int × Int)) :
    (l.map (fun t => t.1 - t.2.1)).sum =
      (l.map (fun t => t.1)).sum - (l.map (fun t => t.2.1)).sum := by
  induction l with
  | nil => simp
  | cons x xs ih => simp only [List.map_cons, List.sum_cons, ih]; ring

/-! ### C9 -/

/-- C9: the per-kind reducer satisfies `net a r c = a - r` (both in
`_compute_stat` and in `GitStats.net`), and summing per-repository results and
then taking net equals taking added-sum minus removed-sum, and equals the sum
of the per-repository nets: summing across repositories commutes with net. -/
theorem net_commutes_spec (results : List (Int × Int × Int)) (a r c : Int) :
    compute_stat "net" a r c = a - r ∧
    (GitStats.mk a r c).net = a - r ∧
    get_sum_totals "net" results =
      get_sum_totals "added" results - get_sum_totals "removed" results ∧
    get_sum_totals "net" results = (results.map (fun t => t.1 - t.2.1)).sum := by
  have hnet : ∀ x y z : Int, compute_stat "net" x y z = x - y := by
    intro x y z
    unfold compute_stat
    rw [if_neg (by decide), if_neg (by decide), if_neg (by decide)]
  have hadd : ∀ x y z : Int, compute_stat "added" x y z = x := by
    intro x y z
    unfold compute_stat
    rw [if_pos rfl]
  have hrem : ∀ x y z : Int, compute_stat "removed" x y z = y := by
    intro x y z
    unfold compute_stat
    rw [if_neg (by decide), if_pos rfl]
  refine ⟨hnet a r c, rfl, ?_, ?_⟩
  · unfold get_sum_totals
    rw [sumTriples_eq, hnet, hadd, hrem]
  · unfold get_sum_totals
    rw [sumTriples_eq, hnet, sum_map_sub]

/-! ### C10 -/

/-- C10: for every statistic-kind string other than "added", "removed" and
"commits" — any unrecognized string, not just "net" — `_compute_stat` falls
through to the net value `added - removed`; no error is raised. -/
theorem compute_stat_unknown_kind (statType : String)
    (added removed commits : Int) (h1 : statType ≠ "added")
    (h2 : statType ≠ "removed") (h3 : statType ≠ "commits") :
    compute_stat statType added removed commits = added - removed := by
  unfold compute_stat
  rw [if_neg h1, if_neg h2, if_neg h3]

/-- C10 witness: the unrecognized kind "banana" yields the net value. -/
theorem compute_stat_unknown_kind_witness :
    compute_stat "banana" 7 2 9 = 7 - 2 :=
  compute_stat_unknown_kind "banana" 7 2 9 (by decide) (by decide) (by decide)

/-! ### C3 -/

/-- C3 counterexample: a missing-executable failure (`FileNotFoundError`)
returns zero stats but does NOT mark the repository in the failed set, so the
claim that every failing invocation kind marks the repository failed is false
at this input. -/
theorem get_stats_file_not_found_cex :
    get_stats defaultParser [] "r" RunOutcome.fileNotFound = (⟨0, 0, 0⟩, []) ∧
    "r" ∉ (get_stats defaultParser [] "r" RunOutcome.fileNotFound).2 := by
  decide

/-- C3 amended: a repository already in the failed set short-circuits to
zero-valued stats with the outcome argument never consulted (the tool is not
re-invoked); a non-zero exit (`CalledProcessError`) or a timeout
(`SubprocessError`) returns zero stats and adds the repository to the failed
set; a missing executable (`FileNotFoundError`) returns zero stats but leaves
the failed set unchanged. -/
theorem get_stats_failure_spec (p : GitLogParser) (failed : List String)
    (repo : String) :
    (∀ outcome, repo ∈ failed →
      get_stats p failed repo outcome = (⟨0, 0, 0⟩, failed)) ∧
    (repo ∉ failed →
      get_stats p failed repo RunOutcome.calledProcessError =
        (⟨0, 0, 0⟩, repo :: failed) ∧
      get_stats p failed repo RunOutcome.subprocessError =
        (⟨0, 0, 0⟩, repo :: failed) ∧
      get_stats p failed repo RunOutcome.fileNotFound = (⟨0, 0, 0⟩, failed)) ∧
    (∀ outcome outcome', repo ∈ failed →
      get_stats p failed repo outcome = get_stats p failed repo outcome') := by
  refine ⟨?_, ?_, ?_⟩
  · intro outcome hmem
    cases outcome <;> simp [get_stats, hmem]
  · intro hnot
    simp [get_stats, hnot]
  · intro outcome outcome' hmem
    simp [get_stats, hmem]

/-- C3 witness: a non-zero exit on a fresh repository marks it failed. -/
theorem get_stats_failure_spec_witness :
    get_stats defaultParser [] "r" RunOutcome.calledProcessError =
      (⟨0, 0, 0⟩, ["r"]) :=
  ((get_stats_failure_spec defaultParser [] "r").2.1 (by decide)).1

/-! ### C7 -/

/-- C7 counterexample: the cache-level `set_project_type` upserts only the
metadata row and leaves the repository's daily rows in place, so the claim
that the cache's `set_project_type` deletes them is false at this input. -/
theorem cache_set_project_type_cex :
    (cacheSetProjectType projState "r" "unity" "user" "t0").dailyStats =
      [⟨"r", 1, 2, 3, 4⟩] ∧
    ¬ ((cacheSetProjectType projState "r" "unity" "user" "t0").dailyStats.filter
        (fun row => row.repo == "r") = []) := by
  decide

/-- C7 amended: the source-level `GitStatsSource.set_project_type` (which
calls the cache's `set_project_type` and then `clear_repo`) leaves no daily
row for the repository and exactly one metadata row for it (the upserted one);
the cache-level `set_project_type` alone never touches `daily_stats`. -/
theorem source_set_project_type_spec (st : CacheState)
    (repo projectType typeSource now : String) :
    (sourceSetProjectType st repo projectType typeSource now).dailyStats.filter
        (fun row => row.repo == repo) = [] ∧
    (sourceSetProjectType st repo projectType typeSource now).repoMeta.filter
        (fun m => m.repo == repo) = [⟨repo, projectType, typeSource, now⟩] ∧
    (cacheSetProjectType st repo projectType typeSource now).dailyStats =
      st.dailyStats := by
  refine ⟨?_, ?_, rfl⟩
  · rw [List.eq_nil_iff_forall_not_mem]
    intro x hx
    simp only [sourceSetProjectType, clear_repo, cacheSetProjectType,
      List.mem_filter, Bool.not_eq_true', beq_eq_false_iff_ne, ne_eq,
      beq_iff_eq] at hx
    exact hx.1.2 hx.2
  · simp only [sourceSetProjectType, clear_repo, cacheSetProjectType,
      List.filter_append]
    have h1 : (st.repoMeta.filter (fun m => !(m.repo == repo))).filter
        (fun m => m.repo == repo) = [] := by
      rw [List.filter_eq_nil_iff]
      intro a ha
      have := (List.mem_filter.mp ha).2
      simp only [Bool.not_eq_true', beq_eq_false_iff_ne, ne_eq] at this
      simp [this]
    rw [h1]
    simp

/-! ### C8 -/

/-- C8: `get_cached_sum` sums added/removed/commits exactly over the cached
rows of the repository with day in `[start, min end (today - 1)]` (yesterday
is the last day considered cached); when `min end (today - 1) < start` it
returns `(0, 0, 0)` — in particular for `start = end = today`; and rows with
day beyond yesterday never contribute (removing them does not change the
result). -/
theorem cached_sum_spec (today : Int) (st : CacheState) (repo : String)
    (s e : Int) :
    get_cached_sum today st repo s e =
      (((st.dailyStats.filter (fun r => r.repo == repo && decide (s ≤ r.day) &&
            decide (r.day ≤ min e (today - 1)))).map (fun r => r.added)).sum,
       ((st.dailyStats.filter (fun r => r.repo == repo && decide (s ≤ r.day) &&
            decide (r.day ≤ min e (today - 1)))).map (fun r => r.removed)).sum,
       ((st.dailyStats.filter (fun r => r.repo == repo && decide (s ≤ r.day) &&
            decide (r.day ≤ min e (today - 1)))).map (fun r => r.commits)).sum) ∧
    (min e (today - 1) < s → get_cached_sum today st repo s e = (0, 0, 0)) ∧
    get_cached_sum today st repo today today = (0, 0, 0) ∧
    get_cached_sum today st repo s e =
      get_cached_sum today
        ⟨st.dailyStats.filter (fun r => decide (r.day ≤ today - 1)), st.repoMeta⟩
        repo s e := by
  have hfilter : ∀ (hc : min e (today - 1) < s),
      st.dailyStats.filter (fun r => r.repo == repo && decide (s ≤ r.day) &&
        decide (r.day ≤ min e (today - 1))) = [] := by
    intro hc
    rw [List.filter_eq_nil_iff]
    intro a _ ha
    simp only [Bool.and_eq_true, decide_eq_true_eq] at ha
    omega
  refine ⟨?_, ?_, ?_, ?_⟩
  · by_cases hc : min e (today - 1) < s
    · simp only [get_cached_sum]
      rw [if_pos hc, hfilter hc]
      simp
    · simp only [get_cached_sum]
      rw [if_neg hc]
  · intro hc
    simp only [get_cached_sum]
    rw [if_pos hc]
  · simp only [get_cached_sum]
    rw [if_pos (by omega : min today (today - 1) < today)]
  · by_cases hc : min e (today - 1) < s
    · simp only [get_cached_sum]
      rw [if_pos hc, if_pos hc]
    · simp only [get_cached_sum]
      rw [if_neg hc, if_neg hc]
      rw [List.filter_filter]
      have : ∀ x ∈ st.dailyStats,
          ((x.repo == repo && decide (s ≤ x.day) && decide (x.day ≤ min e (today - 1))) &&
            decide (x.day ≤ today - 1)) =
          (x.repo == repo && decide (s ≤ x.day) && decide (x.day ≤ min e (today - 1))) := by
        intro x _
        by_cases hd : x.day ≤ today - 1
        · simp [hd]
        · have h1 : ¬ (x.day ≤ min e (today - 1)) := by omega
          simp [hd, h1]
      rw [List.filter_congr this]

/-- C8 witness: a range entirely beyond yesterday yields zeros. -/
theorem cached_sum_spec_witness :
    get_cached_sum 10 (CacheState.mk [] []) "r" 12 13 = (0, 0, 0) :=
  (cached_sum_spec 10 (CacheState.mk [] []) "r" 12 13).2.1 (by decide)

/-! ### C2 helper lemmas -/

/-- Upserting a row makes it the row found at its own key. -/
theorem lookupRow_upsert_self (rows : List CacheRow) (r : CacheRow) :
    lookupRow (upsertRow rows r) r.repo r.day = some r := by
  unfold lookupRow upsertRow
  rw [List.find?_append]
  have h1 : (rows.filter fun x => !(x.repo == r.repo && x.day == r.day)).find?
      (fun x => x.repo == r.repo && x.day == r.day) = none := by
    rw [List.find?_eq_none]
    intro x hx
    have := (List.mem_filter.mp hx).2
    simp only [Bool.not_eq_true'] at this
    simp [this]
  rw [h1]
  simp

/-- `find?` is unchanged by a filter that keeps everything satisfying the
search predicate. -/
theorem find?_filter_of_imp {α : Type} (p q : α → Bool) (l : List α)
    (h : ∀ x, p x = true → q x = true) :
    (l.filter q).find? p = l.find? p := by
  induction l with
  | nil => rfl
  | cons a t ih =>
      by_cases hq : q a = true
      · rw [List.filter_cons_of_pos hq]
        by_cases hp : p a = true
        · rw [List.find?_cons_of_pos (t.filter q) hp, List.find?_cons_of_pos t hp]
        · rw [List.find?_cons_of_neg (t.filter q) hp, List.find?_cons_of_neg t hp]
          exact ih
      · have hp : ¬ p a = true := fun hpa => hq (h a hpa)
        rw [List.filter_cons_of_neg (by simpa using hq),
          List.find?_cons_of_neg t hp]
        exact ih

/-- Upserting a row does not change the lookup at any other key. -/
theorem lookupRow_upsert_ne (rows : List CacheRow) (r : CacheRow)
    (repo : String) (day : Int) (h : ¬(repo = r.repo ∧ day = r.day)) :
    lookupRow (upsertRow rows r) repo day = lookupRow rows repo day := by
  unfold lookupRow upsertRow
  rw [List.find?_append]
  have h2 : [r].find? (fun x => x.repo == repo && x.day == day) = none := by
    rw [List.find?_eq_none]
    intro x hx
    have hx' : x = r := by simpa using hx
    subst hx'
    simp only [Bool.and_eq_true, beq_iff_eq, not_and]
    intro h1 h2
    exact h ⟨h1.symm, h2.symm⟩
  rw [h2]
  rw [Option.or_none]
  apply find?_filter_of_imp
  intro x hx
  simp only [Bool.and_eq_true, beq_iff_eq] at hx
  simp only [Bool.not_eq_true', Bool.and_eq_false_iff, beq_eq_false_iff_ne, ne_eq]
  by_contra hcon
  push_neg at hcon
  exact h ⟨hx.1.symm.trans hcon.1, hx.2.symm.trans hcon.2⟩

/-- The batched upsert fold leaves every key not written untouched. -/
theorem lookup_batch_fold_ne (repo : String) (L : List (Int × GitStats))
    (rows : List CacheRow) (repo' : String) (day : Int)
    (h : repo' ≠ repo ∨ day ∉ L.map Prod.fst) :
    lookupRow
      (L.foldl (fun rows e =>
        upsertRow rows ⟨repo, e.1, e.2.added, e.2.removed, e.2.commits⟩) rows)
      repo' day = lookupRow rows repo' day := by
  induction L generalizing rows with
  | nil => rfl
  | cons a t ih =>
      rw [List.foldl_cons]
      have h' : repo' ≠ repo ∨ day ∉ t.map Prod.fst := by
        rcases h with h | h
        · exact Or.inl h
        · exact Or.inr (fun hx => h (by rw [List.map_cons]; exact List.mem_cons_of_mem _ hx))
      rw [ih _ h']
      apply lookupRow_upsert_ne
      rintro ⟨h1, h2⟩
      rcases h with h | h
      · exact h h1
      · exact h (by rw [List.map_cons, h2]; exact List.mem_cons_self _ _)

/-- The batched upsert fold stores each written entry at its key (days
pairwise distinct, as in a Python dict). -/
theorem lookup_batch_fold_mem (repo : String) (L : List (Int × GitStats))
    (rows : List CacheRow) (d : Int) (gs : GitStats) (hmem : (d, gs) ∈ L)
    (hnd : (L.map Prod.fst).Nodup) :
    lookupRow
      (L.foldl (fun rows e =>
        upsertRow rows ⟨repo, e.1, e.2.added, e.2.removed, e.2.commits⟩) rows)
      repo d = some ⟨repo, d, gs.added, gs.removed, gs.commits⟩ := by
  induction L generalizing rows with
  | nil => cases hmem
  | cons a t ih =>
      rw [List.foldl_cons]
      rw [List.map_cons, List.nodup_cons] at hnd
      rcases List.mem_cons.mp hmem with heq | hmem'
      · subst heq
        have hdnot : d ∉ t.map Prod.fst := hnd.1
        rw [lookup_batch_fold_ne repo t _ repo d (Or.inr hdnot)]
        exact lookupRow_upsert_self rows ⟨repo, d, gs.added, gs.removed, gs.commits⟩
      · exact ih _ hmem' hnd.2

/-- Every row produced by the batched upsert fold is either pre-existing or
one of the written entries. -/
theorem mem_batch_fold (repo : String) (L : List (Int × GitStats))
    (rows : List CacheRow) (row : CacheRow)
    (h : row ∈ L.foldl (fun rows e =>
        upsertRow rows ⟨repo, e.1, e.2.added, e.2.removed, e.2.commits⟩) rows) :
    row ∈ rows ∨ ∃ e ∈ L, row = ⟨repo, e.1, e.2.added, e.2.removed, e.2.commits⟩ := by
  induction L generalizing rows with
  | nil => exact Or.inl h
  | cons a t ih =>
      rw [List.foldl_cons] at h
      rcases ih _ h with hr | ⟨e, he, heq⟩
      · unfold upsertRow at hr
        rcases List.mem_append.mp hr with h1 | h2
        · exact Or.inl (List.mem_filter.mp h1).1
        · have : row = ⟨repo, a.1, a.2.added, a.2.removed, a.2.commits⟩ := by
            simpa using h2
          exact Or.inr ⟨a, List.mem_cons_self a t, this⟩
      · exact Or.inr ⟨e, List.mem_cons_of_mem a he, heq⟩

/-! ### C2 -/

/-- C2: `save_daily_stats` with `day >= today` is a no-op; `save_batch`
persists exactly the entries with day strictly before today (each such entry
is stored at its key, and every key not among them — in particular every key
with day today or later — is untouched); and no cache operation ever
introduces a `daily_stats` row for today or a future day: every row after any
operation either pre-existed or has `day < today`. -/
theorem cache_write_spec (today : Int) (st : CacheState) :
    (∀ repo day stats, today ≤ day →
      save_daily_stats today st repo day stats = st) ∧
    (∀ repo entries, (entries.map Prod.fst).Nodup →
      (∀ d gs, (d, gs) ∈ entries → d < today →
        lookupRow (save_batch today st repo entries).dailyStats repo d =
          some ⟨repo, d, gs.added, gs.removed, gs.commits⟩) ∧
      (∀ repo' day, (repo' ≠ repo ∨ today ≤ day ∨ day ∉ entries.map Prod.fst) →
        lookupRow (save_batch today st repo entries).dailyStats repo' day =
          lookupRow st.dailyStats repo' day)) ∧
    (∀ op row, row ∈ (applyOp today st op).dailyStats →
      row ∈ st.dailyStats ∨ row.day < today) := by
  refine ⟨?_, ?_, ?_⟩
  · intro repo day stats h
    unfold save_daily_stats
    rw [if_pos h]
  · intro repo entries hnd
    constructor
    · intro d gs hm hd
      unfold save_batch
      apply lookup_batch_fold_mem
      · exact List.mem_filter_of_mem hm (by simpa using hd)
      · exact List.Nodup.sublist
          (List.Sublist.map Prod.fst (List.filter_sublist entries)) hnd
    · intro repo' day h
      unfold save_batch
      apply lookup_batch_fold_ne
      rcases h with h | h | h
      · exact Or.inl h
      · refine Or.inr (fun hx => ?_)
        obtain ⟨e, he, heq⟩ := List.mem_map.mp hx
        have he2 := (List.mem_filter.mp he).2
        simp only [decide_eq_true_eq] at he2
        rw [heq] at he2
        omega
      · refine Or.inr (fun hx => h ?_)
        obtain ⟨e, he, heq⟩ := List.mem_map.mp hx
        exact heq ▸ List.mem_map_of_mem Prod.fst (List.mem_filter.mp he).1
  · intro op row h
    cases op with
    | saveDaily repo day stats =>
        simp only [applyOp, save_daily_stats] at h
        by_cases hd : today ≤ day
        · rw [if_pos hd] at h
          exact Or.inl h
        · rw [if_neg hd] at h
          unfold upsertRow at h
          rcases List.mem_append.mp h with h1 | h2
          · exact Or.inl (List.mem_filter.mp h1).1
          · have hr : row = ⟨repo, day, stats.added, stats.removed, stats.commits⟩ := by
              simpa using h2
            right
            rw [hr]
            show day < today
            omega
    | saveBatch repo entries =>
        simp only [applyOp, save_batch] at h
        rcases mem_batch_fold repo _ _ _ h with h1 | ⟨e, he, heq⟩
        · exact Or.inl h1
        · right
          have he2 := (List.mem_filter.mp he).2
          simp only [decide_eq_true_eq] at he2
          rw [heq]
          exact he2
    | setProjectType repo projectType typeSource now => exact Or.inl h
    | deleteProjectType repo => exact Or.inl h
    | clearRepo repo =>
        simp only [applyOp, clear_repo] at h
        exact Or.inl (List.mem_filter.mp h).1
    | clearAll =>
        simp [applyOp, clear_all] at h
/-- C2 witness: a batch of one historical day is stored at its key. -/
theorem cache_write_spec_witness :
    lookupRow
      (save_batch 5 (CacheState.mk [] []) "r" [(1, GitStats.mk 2 3 4)]).dailyStats
      "r" 1 = some ⟨"r", 1, 2, 3, 4⟩ :=
  (((cache_write_spec 5 (CacheState.mk [] [])).2.1 "r"
      [(1, GitStats.mk 2 3 4)] (by decide)).1) 1 (GitStats.mk 2 3 4)
    (by decide) (by decide)

/-! ### Numstat line lemmas (shared by C4, C5, C6) -/

/-- A line that splits into three tab-separated fields is neither empty nor
the commit marker. -/
theorem pySplit_three_ne (line a r f : String)
    (h : pySplit '\t' line = [a, r, f]) :
    line ≠ "" ∧ line ≠ "---COMMIT---" := by
  constructor
  · intro he
    subst he
    rw [show pySplit '\t' "" = [""] from rfl] at h
    simp at h
  · intro he
    subst he
    rw [show pySplit '\t' "---COMMIT---" = ["---COMMIT---"] from rfl] at h
    simp at h

/-- The contribution of a 3-field line is `lineOutcome` of its fields. -/
theorem lineDelta_eq_of_split (p : GitLogParser) (line a r f : String)
    (hsplit : pySplit '\t' line = [a, r, f]) :
    lineDelta p line = lineOutcome p a r f := by
  obtain ⟨hne, hnm⟩ := pySplit_three_ne line a r f hsplit
  unfold lineDelta numstatStep lineOutcome
  rw [if_neg hne, if_neg hnm, hsplit]
  split
  next addedStr removedStr filepath heq =>
    obtain ⟨h1, h2, h3⟩ : a = addedStr ∧ r = removedStr ∧ f = filepath := by
      simpa using heq
    subst h1
    subst h2
    subst h3
    split
    · rfl
    · split
      · rfl
      · cases pyParseInt a <;> cases pyParseInt r <;> simp
  next h => exact absurd rfl (h a r f)

/-- One accumulation step adds the line's contribution componentwise. -/
theorem numstatStep_add (p : GitLogParser) (acc : GitStats) (line : String) :
    numstatStep p acc line =
      ⟨acc.added + (lineDelta p line).added,
       acc.removed + (lineDelta p line).removed,
       acc.commits + (lineDelta p line).commits⟩ := by
  unfold lineDelta numstatStep
  split
  · simp
  · split
    · simp
    · split
      · split
        · simp
        · split
          · simp
          · cases pyParseInt _ <;> cases pyParseInt _ <;> simp
      · simp

/-- Folding the accumulation over a list of lines sums the per-line
contributions. -/
theorem foldl_numstatStep (p : GitLogParser) (lines : List String)
    (acc : GitStats) :
    lines.foldl (numstatStep p) acc =
      ⟨acc.added + (lines.map (fun l => (lineDelta p l).added)).sum,
       acc.removed + (lines.map (fun l => (lineDelta p l).removed)).sum,
       acc.commits + (lines.map (fun l => (lineDelta p l).commits)).sum⟩ := by
  induction lines generalizing acc with
  | nil => simp
  | cons x xs ih =>
      rw [List.foldl_cons, numstatStep_add, ih]
      simp only [List.map_cons, List.sum_cons, GitStats.mk.injEq]
      refine ⟨by ring, by ring, by ring⟩

/-- `_parse_numstat` is the componentwise sum of the per-line
contributions of the stripped, newline-split output. -/
theorem parse_numstat_fold (p : GitLogParser) (output : String) :
    parse_numstat p output =
      ⟨((pySplit '\n' (pyStrip output)).map (fun l => (lineDelta p l).added)).sum,
       ((pySplit '\n' (pyStrip output)).map (fun l => (lineDelta p l).removed)).sum,
       ((pySplit '\n' (pyStrip output)).map (fun l => (lineDelta p l).commits)).sum⟩ := by
  unfold parse_numstat
  rw [foldl_numstatStep]
  simp

/-- A 3-field line never contributes to the commit count. -/
theorem lineOutcome_commits (p : GitLogParser) (a r f : String) :
    (lineOutcome p a r f).commits = 0 := by
  unfold lineOutcome
  split
  · rfl
  · split
    · rfl
    · cases pyParseInt a <;> cases pyParseInt r <;> simp

/-- Every line's contribution to the commit count is non-negative. -/
theorem lineDelta_commits_nonneg (p : GitLogParser) (line : String) :
    0 ≤ (lineDelta p line).commits := by
  unfold lineDelta numstatStep
  split
  · simp
  · split
    · simp
    · split
      · split
        · simp
        · split
          · simp
          · cases pyParseInt _ <;> cases pyParseInt _ <;> simp
      · simp

/-- When both fields parse only to non-negative values, a 3-field line's
contribution is non-negative. -/
theorem lineOutcome_nonneg (p : GitLogParser) (a r f : String)
    (hA : ∀ v, pyParseInt a = some v → 0 ≤ v)
    (hR : ∀ v, pyParseInt r = some v → 0 ≤ v) :
    0 ≤ (lineOutcome p a r f).added ∧ 0 ≤ (lineOutcome p a r f).removed := by
  unfold lineOutcome
  split
  · simp
  · split
    · simp
    · cases hpa : pyParseInt a with
      | none => simp
      | some va =>
          cases hpr : pyParseInt r with
          | none => exact ⟨hA va hpa, le_refl 0⟩
          | some vr => exact ⟨hA va hpa, hR vr hpr⟩

/-- A line that does not split into three fields contributes zero, except
that the commit marker contributes one commit. -/
theorem lineDelta_no_split (p : GitLogParser) (line : String)
    (h : ∀ a r f, pySplit '\t' line ≠ [a, r, f]) :
    lineDelta p line = ⟨0, 0, 0⟩ ∨ lineDelta p line = ⟨0, 0, 1⟩ := by
  unfold lineDelta numstatStep
  split
  · exact Or.inl rfl
  · split
    · exact Or.inr rfl
    · split
      next addedStr removedStr filepath heq => exact absurd heq (h _ _ _)
      next => exact Or.inl rfl

/-! ### C4 -/

/-- C4 counterexample: the line `5<TAB>x<TAB>f.py` has a numeric added field
and an unparseable removed field, yet `_parse_numstat` returns added = 5:
`total_added += int(added_str)` has already executed when
`int(removed_str)` raises, so the line does not contribute zero to both
totals as claimed. -/
theorem parse_numstat_partial_cex :
    parse_numstat defaultParser "5\tx\tf.py" = ⟨5, 0, 0⟩ ∧ ¬((5 : Int) = 0) := by
  decide

/-- C4 amended: for a non-binary, non-excluded 3-field line, an unparseable
added field contributes nothing; an unparseable removed field with a
parseable added field contributes the added value to the added total and
nothing to the removed total; and `_parse_numstat` is exactly the sum of
these per-line contributions. -/
theorem malformed_line_spec (p : GitLogParser) (line a r f : String)
    (hsplit : pySplit '\t' line = [a, r, f]) (ha : a ≠ "-") (hr : r ≠ "-")
    (hex : should_exclude p f = false) :
    (pyParseInt a = none → lineDelta p line = ⟨0, 0, 0⟩) ∧
    (∀ va, pyParseInt a = some va → pyParseInt r = none →
      lineDelta p line = ⟨va, 0, 0⟩) ∧
    (∀ output, parse_numstat p output =
      ⟨((pySplit '\n' (pyStrip output)).map (fun l => (lineDelta p l).added)).sum,
       ((pySplit '\n' (pyStrip output)).map (fun l => (lineDelta p l).removed)).sum,
       ((pySplit '\n' (pyStrip output)).map (fun l => (lineDelta p l).commits)).sum⟩) := by
  refine ⟨?_, ?_, fun output => parse_numstat_fold p output⟩
  · intro h
    rw [lineDelta_eq_of_split p line a r f hsplit]
    simp [lineOutcome, ha, hr, hex, h]
  · intro va hva hrn
    rw [lineDelta_eq_of_split p line a r f hsplit]
    simp [lineOutcome, ha, hr, hex, hva, hrn]

/-- C4 witness: the counterexample line contributes `(5, 0, 0)`. -/
theorem malformed_line_spec_witness :
    lineDelta defaultParser "5\tx\tf.py" = ⟨5, 0, 0⟩ :=
  (malformed_line_spec defaultParser "5\tx\tf.py" "5" "x" "f.py" (by decide)
      (by decide) (by decide) (by decide)).2.1 5 (by decide) (by decide)

/-! ### C5 -/

/-- C5 counterexample: on the (not git-producible) line `-5<TAB>0<TAB>f.py`
the parser returns a negative added total, so non-negativity does not hold
for arbitrary output strings. -/
theorem parse_numstat_negative_cex :
    parse_numstat defaultParser "-5\t0\tf.py" = ⟨-5, 0, 0⟩ ∧
    ¬(0 ≤ (-5 : Int)) := by
  decide

/-- C5 amended: for every output whose numeric fields parse only to
non-negative values (as real git numstat output, which prints unsigned
counts, always does), the returned added/removed/commits are non-negative;
and a row whose added or removed field is the binary marker `-` contributes
zero under every parser configuration — it is skipped before exclusion
filtering and numeric accumulation. -/
theorem numstat_nonneg_spec (p : GitLogParser) (output : String)
    (h : ∀ line ∈ pySplit '\n' (pyStrip output), ∀ a r f,
        pySplit '\t' line = [a, r, f] →
        (∀ v, pyParseInt a = some v → 0 ≤ v) ∧
        (∀ v, pyParseInt r = some v → 0 ≤ v)) :
    0 ≤ (parse_numstat p output).added ∧
    0 ≤ (parse_numstat p output).removed ∧
    0 ≤ (parse_numstat p output).commits ∧
    (∀ (q : GitLogParser) line a r f, pySplit '\t' line = [a, r, f] →
      (a = "-" ∨ r = "-") → lineDelta q line = ⟨0, 0, 0⟩) := by
  have hline : ∀ line ∈ pySplit '\n' (pyStrip output),
      0 ≤ (lineDelta p line).added ∧ 0 ≤ (lineDelta p line).removed := by
    intro line hl
    by_cases hsp : ∃ a r f, pySplit '\t' line = [a, r, f]
    · obtain ⟨a, r, f, hsplit⟩ := hsp
      rw [lineDelta_eq_of_split p line a r f hsplit]
      exact lineOutcome_nonneg p a r f (h line hl a r f hsplit).1
        (h line hl a r f hsplit).2
    · push_neg at hsp
      rcases lineDelta_no_split p line hsp with he | he <;> rw [he] <;>
        exact ⟨le_refl 0, le_refl 0⟩
  rw [parse_numstat_fold]
  refine ⟨?_, ?_, ?_, ?_⟩
  · apply List.sum_nonneg
    intro x hx
    obtain ⟨l, hl, rfl⟩ := List.mem_map.mp hx
    exact (hline l hl).1
  · apply List.sum_nonneg
    intro x hx
    obtain ⟨l, hl, rfl⟩ := List.mem_map.mp hx
    exact (hline l hl).2
  · apply List.sum_nonneg
    intro x hx
    obtain ⟨l, hl, rfl⟩ := List.mem_map.mp hx
    exact lineDelta_commits_nonneg p l
  · intro q line a r f hsplit hbin
    rw [lineDelta_eq_of_split q line a r f hsplit]
    rcases hbin with hb | hb <;> simp [lineOutcome, hb]

/-- C5 witness: on a well-formed output the added total is non-negative. -/
theorem numstat_nonneg_spec_witness :
    0 ≤ (parse_numstat defaultParser "3\t1\tf.py").added := by
  refine (numstat_nonneg_spec defaultParser "3\t1\tf.py" ?_).1
  intro line hl a r f hsplit
  have hle : line = "3\t1\tf.py" := by
    rw [show pySplit '\n' (pyStrip "3\t1\tf.py") = ["3\t1\tf.py"] from rfl] at hl
    simpa using hl
  subst hle
  rw [show pySplit '\t' "3\t1\tf.py" = ["3", "1", "f.py"] from rfl] at hsplit
  obtain ⟨ha, hr, hf⟩ : "3" = a ∧ "1" = r ∧ "f.py" = f := by simpa using hsplit
  subst ha
  subst hr
  subst hf
  constructor
  · intro v hv
    rw [show pyParseInt "3" = some 3 from by decide] at hv
    obtain rfl : (3 : Int) = v := Option.some.inj hv
    decide
  · intro v hv
    rw [show pyParseInt "1" = some 1 from by decide] at hv
    obtain rfl : (1 : Int) = v := Option.some.inj hv
    decide

/-! ### C6 -/

/-- `_should_exclude` as the disjunction of its four tests. -/
theorem should_exclude_eq_or (p : GitLogParser) (filepath : String) :
    should_exclude p filepath =
      ((pathParts filepath).any (fun part => p.excludeDirs.contains part) ||
       p.excludeFilenames.contains (pathName filepath) ||
       p.excludeExtensions.any (fun ext => pyEndsWith (pathName filepath) ext) ||
       (match p.projectTypeConfig with
        | none => false
        | some cfg => !cfg.includePatterns.isEmpty &&
            !(matches_include_pattern p filepath))) := by
  unfold should_exclude
  by_cases h1 : ((pathParts filepath).any fun part => p.excludeDirs.contains part) = true
  · rw [if_pos h1, h1]
    simp
  · rw [if_neg h1, Bool.eq_false_iff.mpr h1, Bool.false_or]
    by_cases h2 : p.excludeFilenames.contains (pathName filepath) = true
    · rw [if_pos h2, h2]
      simp
    · rw [if_neg h2, Bool.eq_false_iff.mpr h2, Bool.false_or]
      by_cases h3 : (p.excludeExtensions.any fun ext =>
          pyEndsWith (pathName filepath) ext) = true
      · rw [if_pos h3, h3]
        simp
      · rw [if_neg h3, Bool.eq_false_iff.mpr h3, Bool.false_or]

/-- `_should_exclude` returns true exactly when one of the four exclusion
conditions of the specification holds. -/
theorem should_exclude_iff (p : GitLogParser) (filepath : String) :
    should_exclude p filepath = true ↔
      ((∃ part ∈ pathParts filepath, part ∈ p.excludeDirs) ∨
       pathName filepath ∈ p.excludeFilenames ∨
       (∃ ext ∈ p.excludeExtensions, pyEndsWith (pathName filepath) ext = true) ∨
       (∃ cfg, p.projectTypeConfig = some cfg ∧ cfg.includePatterns ≠ [] ∧
         ∀ pat ∈ cfg.includePatterns, fnmatch (normalizeSeps filepath) pat = false)) := by
  rw [should_exclude_eq_or]
  simp only [Bool.or_eq_true]
  rw [or_assoc, or_assoc]
  have e1 : ((pathParts filepath).any (fun part => p.excludeDirs.contains part) = true) ↔
      (∃ part ∈ pathParts filepath, part ∈ p.excludeDirs) := by
    rw [List.any_eq_true]
    constructor
    · rintro ⟨x, hx, hc⟩
      exact ⟨x, hx, (contains_iff_mem_str _ _).mp hc⟩
    · rintro ⟨x, hx, hc⟩
      exact ⟨x, hx, (contains_iff_mem_str _ _).mpr hc⟩
  have e2 : (p.excludeFilenames.contains (pathName filepath) = true) ↔
      pathName filepath ∈ p.excludeFilenames := contains_iff_mem_str _ _
  have e3 : (p.excludeExtensions.any (fun ext =>
        pyEndsWith (pathName filepath) ext) = true) ↔
      (∃ ext ∈ p.excludeExtensions, pyEndsWith (pathName filepath) ext = true) :=
    List.any_eq_true
  have e4 : ((match p.projectTypeConfig with
        | none => false
        | some cfg => !cfg.includePatterns.isEmpty &&
            !(matches_include_pattern p filepath)) = true) ↔
      (∃ cfg, p.projectTypeConfig = some cfg ∧ cfg.includePatterns ≠ [] ∧
        ∀ pat ∈ cfg.includePatterns, fnmatch (normalizeSeps filepath) pat = false) := by
    cases hcfg : p.projectTypeConfig with
    | none => simp
    | some cfg =>
        unfold matches_include_pattern
        rw [hcfg]
        simp [List.any_eq_false, List.isEmpty_eq_false]
  exact or_congr e1 (or_congr e2 (or_congr e3 e4))

/-- C6: `_should_exclude` is true iff a path segment is an excluded
directory, or the filename is an excluded exact name, or the filename ends
with an excluded extension suffix, or the active profile has a non-empty
include-glob list and the separator-normalized path matches none of the
globs; otherwise a well-formed line for the file counts its added/removed
deltas. -/
theorem exclusion_spec (p : GitLogParser) (filepath : String) :
    (should_exclude p filepath = true ↔
      ((∃ part ∈ pathParts filepath, part ∈ p.excludeDirs) ∨
       pathName filepath ∈ p.excludeFilenames ∨
       (∃ ext ∈ p.excludeExtensions, pyEndsWith (pathName filepath) ext = true) ∨
       (∃ cfg, p.projectTypeConfig = some cfg ∧ cfg.includePatterns ≠ [] ∧
         ∀ pat ∈ cfg.includePatterns, fnmatch (normalizeSeps filepath) pat = false))) ∧
    (∀ line a r f va vr, pySplit '\t' line = [a, r, f] → a ≠ "-" → r ≠ "-" →
      should_exclude p f = false → pyParseInt a = some va →
      pyParseInt r = some vr → lineDelta p line = ⟨va, vr, 0⟩) := by
  constructor
  · exact should_exclude_iff p filepath
  · intro line a r f va vr hsplit ha hr hex hva hvr
    rw [lineDelta_eq_of_split p line a r f hsplit]
    simp [lineOutcome, ha, hr, hex, hva, hvr]

/-- C6 witness: a non-excluded C# file's line counts its deltas. -/
theorem exclusion_spec_witness :
    lineDelta defaultParser "10\t2\tAssets/Scripts/Foo.cs" = ⟨10, 2, 0⟩ :=
  (exclusion_spec defaultParser "Assets/Scripts/Foo.cs").2
    "10\t2\tAssets/Scripts/Foo.cs" "10" "2" "Assets/Scripts/Foo.cs" 10 2
    (by decide) (by decide) (by decide) (by decide) (by decide) (by decide)

/-! ### C1 -/

/-- C1: for `start ≤ end`, a day is returned by `get_missing_dates` exactly
when it lies in `[start, min end today]` and either is today (always forced
missing) or has no cached row for the repository; and when
`min end today < start` the result is empty. -/
theorem missing_dates_spec (today : Int) (st : CacheState) (repo : String)
    (s e : Int) (hse : s ≤ e) :
    (∀ d, d ∈ get_missing_dates today st repo s e ↔
      (s ≤ d ∧ d ≤ min e today ∧
        (d = today ∨ ∀ row ∈ st.dailyStats, ¬(row.repo = repo ∧ row.day = d)))) ∧
    (min e today < s → get_missing_dates today st repo s e = []) := by
  constructor
  · intro d
    unfold get_missing_dates
    by_cases hc : min e today < s
    · rw [if_pos hc]
      simp only [List.not_mem_nil, false_iff]
      rintro ⟨h1, h2, -⟩
      omega
    · rw [if_neg hc]
      rw [List.mem_filter]
      have hall : ∀ (M : Int), ¬ M < s → ∀ x : Int,
          (x ∈ (List.range ((M - s).toNat + 1)).map
              (fun (i : Nat) => s + (i : Int)) ↔ (s ≤ x ∧ x ≤ M)) := by
        intro M hMs x
        constructor
        · intro hx
          obtain ⟨i, hi, hxe⟩ := List.mem_map.mp hx
          rw [List.mem_range] at hi
          subst hxe
          omega
        · rintro ⟨h1, h2⟩
          refine List.mem_map.mpr ⟨(x - s).toNat, ?_, ?_⟩
          · rw [List.mem_range]
            omega
          · omega
      have hcach : d ∈ ((get_cached_dates st repo s (min e today)).filter
          (fun x => x != today)) ↔
          (d ≠ today ∧ ∃ row ∈ st.dailyStats,
            row.repo = repo ∧ s ≤ row.day ∧ row.day ≤ min e today ∧
              row.day = d) := by
        rw [List.mem_filter]
        unfold get_cached_dates
        simp only [List.mem_map, List.mem_filter, Bool.and_eq_true, beq_iff_eq,
          decide_eq_true_eq, bne_iff_ne, ne_eq]
        constructor
        · rintro ⟨⟨row, ⟨hrow, ⟨⟨hrepo, hs⟩, hle⟩⟩, hday⟩, hne⟩
          exact ⟨hne, row, hrow, hrepo, hs, hle, hday⟩
        · rintro ⟨hne, row, hrow, hrepo, hs, hle, hday⟩
          exact ⟨⟨row, ⟨hrow, ⟨⟨hrepo, hs⟩, hle⟩⟩, hday⟩, hne⟩
      have hncont : ∀ (L : List Int) (x : Int),
          ((!(L.contains x)) = true ↔ x ∉ L) := by
        intro L x
        cases hb : L.contains x with
        | false =>
            simp only [Bool.not_false, true_iff]
            intro hmem
            rw [(contains_iff_mem L x).mpr hmem] at hb
            cases hb
        | true =>
            simp only [Bool.not_true]
            constructor
            · intro h
              cases h
            · intro h
              exact absurd ((contains_iff_mem L x).mp hb) h
      rw [hall (min e today) hc d, hncont, hcach]
      constructor
      · rintro ⟨⟨h1, h2⟩, hnc⟩
        refine ⟨h1, h2, ?_⟩
        by_cases hd : d = today
        · exact Or.inl hd
        · right
          rintro row hrow ⟨hrepo, hday⟩
          exact hnc ⟨hd, row, hrow, hrepo, by rw [hday]; exact h1,
            by rw [hday]; exact h2, hday⟩
      · rintro ⟨h1, h2, hor⟩
        refine ⟨⟨h1, h2⟩, ?_⟩
        rintro ⟨hne, row, hrow, hrepo, -, -, hday⟩
        rcases hor with hor | hor
        · exact hne hor
        · exact hor row hrow ⟨hrepo, hday⟩
  · intro h
    unfold get_missing_dates
    rw [if_pos h]

/-- C1 witness: in the gap scenario (cached days 2 and 4, range 1..5, today
far in the future) day 3 is reported missing. -/
theorem missing_dates_spec_witness :
    3 ∈ get_missing_dates 100 gapState "r" 1 5 :=
  ((missing_dates_spec 100 gapState "r" 1 5 (by decide)).1 3).mpr (by decide)

end Quantify
